import Mathlib

set_option maxRecDepth 1000000

namespace PaperMd

/- A shallow embedding of the research-paper-to-markdown converter in
src/parse_paper.py. Lines of text are modelled as lists of characters;
Python string operations are translated to list recursions. Unicode-aware
Python predicates (isalpha, istitle, lower, and the regex classes \w and \d)
are modelled by their ASCII behaviour, which coincides with Python on every
input considered in the theorems below. -/

abbrev Str := List Char

/- Python str.isspace and the regex class \s (whitespace code points). -/
def pyIsSpace (c : Char) : Bool :=
  let n := c.toNat
  (0x09 ≤ n && n ≤ 0x0D) || n = 0x20 || (0x1C ≤ n && n ≤ 0x1F) || n = 0x85 ||
    n = 0xA0 || n = 0x1680 || (0x2000 ≤ n && n ≤ 0x200A) || n = 0x2028 ||
    n = 0x2029 || n = 0x202F || n = 0x205F || n = 0x3000

/- Python str.strip(): drop whitespace from both ends. -/
def pyStrip (l : Str) : Str :=
  ((l.dropWhile pyIsSpace).reverse.dropWhile pyIsSpace).reverse

/- Python str.lower(), ASCII fragment. -/
def lowerL (l : Str) : Str := l.map Char.toLower

/- Test whether the second list starts with the first one. -/
def startsWithCl : Str → Str → Bool
  | [], _ => true
  | _ :: _, [] => false
  | p :: ps, c :: cs => p = c && startsWithCl ps cs

/- Python substring containment (the `in` operator on str). -/
def containsCl (needle : Str) : Str → Bool
  | [] => startsWithCl needle []
  | c :: rest => startsWithCl needle (c :: rest) || containsCl needle rest

def containsChar (c : Char) (l : Str) : Bool := l.any (fun d => d = c)

def anyContains (needles : List Str) (hay : Str) : Bool :=
  needles.any (fun k => containsCl k hay)

/- sanitize_filename, src/parse_paper.py lines 364-373. Step 1 is
re.sub removing the characters in the class; step 2 collapses whitespace
runs to a single underscore; step 3 truncates to 100 characters. -/

def badChar (c : Char) : Bool :=
  c = '<' || c = '>' || c = ':' || c = '"' || c = '/' || c = '\\' ||
    c = '|' || c = '?' || c = '*'

/- One pass of re.sub on the class \s+, replacing each maximal whitespace
run with a single underscore. The flag records whether the previous
character was part of a whitespace run already replaced. -/
def collapseWsAux (prevWs : Bool) : Str → Str
  | [] => []
  | c :: rest =>
    if pyIsSpace c then
      (if prevWs then collapseWsAux true rest else '_' :: collapseWsAux true rest)
    else c :: collapseWsAux false rest

def sanitize_filename (s : Str) : Str :=
  let s1 := s.filter (fun c => !badChar c)
  let s2 := collapseWsAux false s1
  s2.take 100

lemma mem_collapseWsAux (l : Str) : ∀ (b : Bool), ∀ c ∈ collapseWsAux b l,
    c = '_' ∨ (c ∈ l ∧ pyIsSpace c = false) := by
  induction l with
  | nil => intro b c hc; simp [collapseWsAux] at hc
  | cons a rest ih =>
    intro b c hc
    by_cases ha : pyIsSpace a = true
    · simp only [collapseWsAux, ha, if_pos] at hc
      rcases hb : b with _ | _
      · subst hb
        simp only [Bool.false_eq_true, if_false, List.mem_cons] at hc
        rcases hc with hc | hc
        · exact Or.inl hc
        · rcases ih true c hc with h | ⟨h1, h2⟩
          · exact Or.inl h
          · exact Or.inr ⟨List.mem_cons_of_mem _ h1, h2⟩
      · subst hb
        simp only [if_true] at hc
        rcases ih true c hc with h | ⟨h1, h2⟩
        · exact Or.inl h
        · exact Or.inr ⟨List.mem_cons_of_mem _ h1, h2⟩
    · simp only [collapseWsAux, ha, if_neg, Bool.false_eq_true, not_false_iff,
        List.mem_cons] at hc
      rcases hc with hc | hc
      · subst hc
        exact Or.inr ⟨List.mem_cons_self _ _, by simpa using ha⟩
      · rcases ih false c hc with h | ⟨h1, h2⟩
        · exact Or.inl h
        · exact Or.inr ⟨List.mem_cons_of_mem _ h1, h2⟩

lemma collapseWsAux_id (l : Str) (h : ∀ c ∈ l, pyIsSpace c = false) :
    ∀ b, collapseWsAux b l = l := by
  induction l with
  | nil => intro b; rfl
  | cons a rest ih =>
    intro b
    have ha : pyIsSpace a = false := h a (List.mem_cons_self _ _)
    simp only [collapseWsAux, ha, Bool.false_eq_true, if_false]
    rw [ih (fun c hc => h c (List.mem_cons_of_mem _ hc))]

lemma sanitize_chars (s : Str) :
    ∀ c ∈ sanitize_filename s, badChar c = false ∧ pyIsSpace c = false := by
  intro c hc
  have hc2 : c ∈ collapseWsAux false (s.filter (fun c => !badChar c)) :=
    List.take_subset _ _ hc
  rcases mem_collapseWsAux _ false c hc2 with h | ⟨h1, h2⟩
  · subst h; exact ⟨by decide, by decide⟩
  · refine ⟨?_, h2⟩
    have := List.of_mem_filter h1
    simpa using this

/-- Claim C10: sanitize_filename is idempotent, because its output never
contains a stripped character or any whitespace and is never longer than
100 characters. -/
theorem c10_sanitize_idem (s : Str) :
    sanitize_filename (sanitize_filename s) = sanitize_filename s := by
  have hchars := sanitize_chars s
  have h1 : (sanitize_filename s).filter (fun c => !badChar c) = sanitize_filename s := by
    rw [List.filter_eq_self]
    intro c hc
    simp [(hchars c hc).1]
  have h2 : collapseWsAux false (sanitize_filename s) = sanitize_filename s :=
    collapseWsAux_id _ (fun c hc => (hchars c hc).2) false
  show (collapseWsAux false ((sanitize_filename s).filter (fun c => !badChar c))).take 100
      = sanitize_filename s
  rw [h1, h2]
  show ((collapseWsAux false (s.filter (fun c => !badChar c))).take 100).take 100 = _
  rw [List.take_take, min_self]
  rfl

/-- Claim C6, counterexample: the code maps "My: Paper/Title" to
"My_PaperTitle", not to "My_Paper_Title"; the slash is stripped in step 1
before whitespace collapsing, so no underscore separates Paper and Title. -/
theorem c6_sanitize_cex :
    sanitize_filename (("My: Paper/Title").data) ≠ (("My_Paper_Title").data) := by
  decide

/-- Claim C6, amended: FilenameSanitizer, which in fixed order strips the
characters in the invalid class, collapses whitespace runs to a single
underscore, and truncates to 100 characters, maps "My: Paper/Title" to
"My_PaperTitle". -/
theorem c6_sanitize_amended :
    sanitize_filename (("My: Paper/Title").data) = (("My_PaperTitle").data) := by
  decide

/- detect_equation, src/parse_paper.py lines 58-90. -/

/- The regex class \w (word characters), ASCII fragment. -/
def wordChar (c : Char) : Bool := c.isAlphanum || c = '_'

/- Search for a keyword occurrence bounded by \b on both sides. The flag
records whether the previous character was a word character. -/
def kwSearchAux (kw : Str) : Bool → Str → Bool
  | _, [] => false
  | prevW, c :: rest =>
    (!prevW && startsWithCl kw (c :: rest) &&
      (match (c :: rest).drop kw.length with
       | [] => true
       | d :: _ => !wordChar d)) || kwSearchAux kw (wordChar c) rest

def hasMathKeyword (l : Str) : Bool :=
  [("sin").data, ("cos").data, ("tan").data, ("log").data, ("exp").data,
    ("max").data, ("min").data, ("softmax").data].any
    (fun k => kwSearchAux k false l)

/- The regex [A-Z]\( : an uppercase letter immediately followed by an
opening parenthesis. -/
def upperParen : Str → Bool
  | a :: b :: rest => (a.isUpper && b = '(') || upperParen (b :: rest)
  | _ => false

/- Unicode subscript digits, the regex range from U+2080 to U+2089. -/
def subDigit (l : Str) : Bool := l.any (fun c => 0x2080 ≤ c.toNat && c.toNat ≤ 0x2089)

/- Unicode superscript range of the source regex, U+2070 to U+2079. -/
def supDigit (l : Str) : Bool := l.any (fun c => 0x2070 ≤ c.toNat && c.toNat ≤ 0x2079)

/- The regex search \(\d+\)\s*$ applied to an already stripped line: a
trailing parenthesized nonempty digit run. -/
def endsParenNum (l : Str) : Bool :=
  match l.reverse with
  | ')' :: r =>
    let p := r.span Char.isDigit
    !p.1.isEmpty && (match p.2 with | '(' :: _ => true | _ => false)
  | _ => false

def detect_equation (line : Str) : Bool :=
  let hasMath :=
    containsChar '=' line || containsChar '+' line || containsChar '∑' line ||
    containsChar '∫' line || containsChar '∏' line || containsChar '√' line ||
    upperParen line || hasMathKeyword line || subDigit line || supDigit line ||
    containsChar '^' line || containsChar '_' line
  let letters := line.countP (fun c => c.isAlpha)
  let total := (line.filter (fun c => c ≠ ' ')).length
  (decide (0 < total) && hasMath && decide (2 * letters < total)) ||
    endsParenNum (pyStrip line)

/- clean_equation, src/parse_paper.py lines 92-109. stripEqNum returns the
text before a trailing (N) marker (stripped) together with the digits N. -/
def stripEqNum (t : Str) : Option (Str × Str) :=
  match t.reverse with
  | ')' :: r =>
    let p := r.span Char.isDigit
    if p.1.isEmpty then none
    else match p.2 with
      | '(' :: preRev => some (pyStrip preRev.reverse, p.1.reverse)
      | _ => none
  | _ => none

def clean_equation (line : Str) : Str :=
  let t := pyStrip line
  match stripEqNum t with
  | some (body, num) =>
      ("$$\n").data ++ body ++ ("\n$$").data ++ (" (Eq. ").data ++ num ++ (")").data
  | none => ("$$\n").data ++ t ++ ("\n$$").data

/-- Claim C7: the line "E = mc^2 (1)" is classified as an equation, and the
equation formatter strips the trailing parenthesized integer, wraps the
remainder in display-math delimiters on their own lines, and appends the
equation-number tag, rendering the line as three lines followed
by " (Eq. 1)". -/
theorem c7_equation_example :
    detect_equation (("E = mc^2 (1)").data) = true ∧
    clean_equation (("E = mc^2 (1)").data) = ("$$\nE = mc^2\n$$ (Eq. 1)").data := by
  exact ⟨by decide, by decide⟩

/- generate_bibtex, src/parse_paper.py lines 319-331: the cite key and the
entry type. Python str.split() with no argument is modelled by wordsAux;
the current calendar year enters as the explicit parameter nowYear. -/

def wordsAux (cur : Str) : Str → List Str
  | [] => if cur.isEmpty then [] else [cur.reverse]
  | c :: rest =>
    if pyIsSpace c then
      (if cur.isEmpty then wordsAux [] rest else cur.reverse :: wordsAux [] rest)
    else wordsAux (c :: cur) rest

def pySplitWs (l : Str) : List Str := wordsAux [] l

/- Python truthiness of an optional string: present and nonempty. -/
def truthyS : Option Str → Bool
  | some (_ :: _) => true
  | _ => false

/- The code indexes split()[-1], which raises on a whitespace-only author;
the embedding returns none there. -/
def cite_key (authors : List Str) (year : Option Str) (nowYear : Str) : Option Str :=
  let firstAuthor := match authors with
    | [] => ("Unknown").data
    | a :: _ => a
  let lastName : Option Str :=
    if firstAuthor.isEmpty then some (("Unknown").data)
    else (pySplitWs firstAuthor).getLast?
  let y := match year with
    | none => nowYear
    | some yv => if yv.isEmpty then nowYear else yv
  match lastName with
  | none => none
  | some ln => some ((ln ++ y).filter (fun c => c ≠ ' '))

def entry_type (venue : Option Str) : Str :=
  if truthyS venue then ("inproceedings").data else ("article").data

/-- Claim C8: the entry type is inproceedings exactly when the venue is set
to a nonempty value and article otherwise; the cite key is the last
whitespace-separated word of the first author concatenated with the year,
spaces stripped; in particular authors ["Jane Doe"], year "2023" and no
venue give entry type article and cite key "Doe2023". -/
theorem c8_bibtex :
    entry_type none = ("article").data ∧
    (∀ c v, entry_type (some (c :: v)) = ("inproceedings").data) ∧
    entry_type (some []) = ("article").data ∧
    cite_key [("Jane Doe").data] (some (("2023").data)) (("2026").data)
      = some (("Doe2023").data) ∧
    (∀ a as y now, cite_key (a :: as) y now =
      (if a.isEmpty then some (("Unknown").data) else (pySplitWs a).getLast?).map
        (fun ln => (ln ++ (match y with
          | none => now
          | some yv => if yv.isEmpty then now else yv)).filter (fun c => c ≠ ' '))) := by
  refine ⟨by decide, fun c v => by simp [entry_type, truthyS], by decide, by decide, ?_⟩
  intro a as y now
  by_cases ha : a = [] <;> cases hg : (pySplitWs a).getLast? <;>
    simp [cite_key, ha, hg]

/- parse_structure, src/parse_paper.py lines 124-294: line predicates. -/

def titleKeywords : List Str :=
  [("university").data, ("google").data, ("research").data, ("brain").data,
    ("department").data]

def institutionKeywords : List Str :=
  [("@").data, ("university").data, ("institute").data, ("google").data,
    ("deepmind").data, ("research").data, ("brain").data, ("department").data,
    ("college").data, (".com").data, (".edu").data]

def contentKeywords : List Str :=
  [("abstract").data, ("introduction").data, ("recurrent").data,
    ("neural network").data, ("the ").data, ("based on").data, ("we propose").data]

/- Python str.istitle(), ASCII fragment: uppercase letters only after
uncased characters, lowercase letters only after cased ones, and at least
one cased character. -/
def istitleAux : Bool → Bool → Str → Bool
  | _, found, [] => found
  | prevCased, found, c :: rest =>
    if c.isUpper then (if prevCased then false else istitleAux true true rest)
    else if c.isLower then (if prevCased then istitleAux true true rest else false)
    else istitleAux false found rest

def istitle (l : Str) : Bool := istitleAux false false l

/- Python str.isupper(), ASCII fragment: some cased character and no
lowercase one. -/
def isupperStr (l : Str) : Bool := l.any Char.isUpper && !(l.any Char.isLower)

def headUpper : Str → Bool
  | c :: _ => c.isUpper
  | [] => false

/- The second group of the section-header regex: [A-Z][A-Za-z\s&-]+ to the
end of the line. -/
def g2class (c : Char) : Bool := c.isAlpha || pyIsSpace c || c = '&' || c = '-'

def g2 : Str → Bool
  | [] => false
  | c :: rest => c.isUpper && !rest.isEmpty && rest.all g2class

/- The full-line regex (\d+\.?\s+)?([A-Z][A-Za-z\s&-]+)$ deciding the
section-header shape. The digit and whitespace runs are forced maximal
because the characters that follow them in the pattern cannot overlap. -/
def sectionShape (l : Str) : Bool :=
  g2 l ||
    (let p := l.span Char.isDigit
     !p.1.isEmpty &&
       (let r2 := match p.2 with | '.' :: t => t | _ => p.2
        let q := r2.span pyIsSpace
        !q.1.isEmpty && g2 q.2))

/- The anchored regex \d+\s+[A-Z] used for numbered section headers. -/
def startsNumUpper (l : Str) : Bool :=
  let p := l.span Char.isDigit
  !p.1.isEmpty &&
    (let q := p.2.span pyIsSpace
     !q.1.isEmpty && (match q.2 with | c :: _ => c.isUpper | [] => false))

/- Suffix matcher for \s+(.+)$ on newline-free lines: a nonempty
whitespace run, then at least one remaining character (the dot of the
regex also matches whitespace, so a run of length two suffices). -/
def wsTail (r : Str) : Bool :=
  let p := r.span pyIsSpace
  !p.1.isEmpty && (!p.2.isEmpty || 2 ≤ p.1.length)

/- Suffix matcher for \d*\.?\s+(.+)$ . -/
def tm1 (r : Str) : Bool :=
  let p := r.span Char.isDigit
  wsTail p.2 || (match p.2 with | '.' :: r3 => wsTail r3 | _ => false)

/- Suffix matcher for \.?\d*\.?\s+(.+)$ , trying both options of the
leading optional dot. -/
def tailMatch (r : Str) : Bool :=
  tm1 r || (match r with | '.' :: r2 => tm1 r2 | _ => false)

/- The subsection regex ^(\d+\.\d+\.?\d*\.?\s+)(.+)$ . -/
def subsectionShape (l : Str) : Bool :=
  let p := l.span Char.isDigit
  !p.1.isEmpty &&
    (match p.2 with
     | '.' :: r2 =>
       let q := r2.span Char.isDigit
       !q.1.isEmpty && tailMatch q.2
     | _ => false)

/- The bullet regex ^[•\-\*]\s+ . -/
def bulletShape : Str → Bool
  | c :: d :: _ => (c = '•' || c = '-' || c = '*') && pyIsSpace d
  | _ => false

/- The classification branches of the line scan, in source priority order.
Abstract-body accumulation is a metadata side effect without a consume, so
it is not a branch. -/
inductive Branch where
  | blank | title | authorAffil | abstractHeader | table | equation
  | majorSection | subsection | bullet | paragraph
deriving DecidableEq, Fintype

def prio : Branch → Nat
  | .blank => 0 | .title => 1 | .authorAffil => 2 | .abstractHeader => 3 | .table => 4
  | .equation => 5 | .majorSection => 6 | .subsection => 7 | .bullet => 8 | .paragraph => 9

def guard9 (g0 g1 g2 g3 g4 g5 g6 g7 g8 : Bool) : Branch → Bool
  | .blank => g0 | .title => g1 | .authorAffil => g2 | .abstractHeader => g3 | .table => g4
  | .equation => g5 | .majorSection => g6 | .subsection => g7 | .bullet => g8
  | .paragraph => true

def classify9 (g0 g1 g2 g3 g4 g5 g6 g7 g8 : Bool) : Branch :=
  if g0 then .blank else if g1 then .title else if g2 then .authorAffil
  else if g3 then .abstractHeader else if g4 then .table else if g5 then .equation
  else if g6 then .majorSection else if g7 then .subsection else if g8 then .bullet
  else .paragraph

abbrev branchAt9 (g0 g1 g2 g3 g4 g5 g6 g7 g8 : Bool) (b : Branch) : Prop :=
  guard9 g0 g1 g2 g3 g4 g5 g6 g7 g8 b = true ∧
    ∀ b2, prio b2 < prio b → guard9 g0 g1 g2 g3 g4 g5 g6 g7 g8 b2 = false

lemma classify9_spec : ∀ g0 g1 g2 g3 g4 g5 g6 g7 g8 : Bool,
    branchAt9 g0 g1 g2 g3 g4 g5 g6 g7 g8 (classify9 g0 g1 g2 g3 g4 g5 g6 g7 g8) ∧
    ∀ b, branchAt9 g0 g1 g2 g3 g4 g5 g6 g7 g8 b →
      b = classify9 g0 g1 g2 g3 g4 g5 g6 g7 g8 := by
  decide

/- The scan state of parse_structure: emitted fragments, the paragraph
buffer, the control flags of the loop, and the metadata dictionary. -/
structure PState where
  result : List Str
  buffer : List Str
  inAbstract : Bool
  inReferences : Bool
  skipLines : Nat
  titleFound : Bool
  metadataSection : Bool
  title : Option Str
  authors : List Str
  year : Option Str
  venue : Option Str
  abstract : Option Str
deriving DecidableEq

/- Branch guards, read off the conditions of parse_structure. A branch
guard holds exactly when the source consumes the line in that branch. -/

def gBlankB (line : Str) : Bool := (pyStrip line).isEmpty

def gTitleB (titleFound : Bool) (i : Nat) (line : Str) : Bool :=
  let ls := pyStrip line
  !titleFound && decide (i < 15) && decide (15 < ls.length) &&
    (istitle ls || (headUpper ls && !isupperStr ls)) &&
    !containsChar '@' ls && !anyContains titleKeywords (lowerL ls)

def isInstitutionB (ls : Str) : Bool := anyContains institutionKeywords (lowerL ls)

def isContentB (ls : Str) : Bool := anyContains contentKeywords (lowerL ls)

def authorCaseB (titleFound : Bool) (ls : Str) : Bool :=
  titleFound && !isInstitutionB ls && !isContentB ls &&
    decide (5 < ls.length) && decide (ls.length < 150)

def gAuthorB (titleFound metadataSection : Bool) (i : Nat) (line : Str) : Bool :=
  let ls := pyStrip line
  decide (i < 40) && metadataSection &&
    (authorCaseB titleFound ls ||
      (isInstitutionB ls && !isContentB ls && decide (ls.length < 200)))

def gAbstractB (line : Str) : Bool :=
  decide (lowerL (pyStrip line) = ("abstract").data)

def gTableB (i n : Nat) (line : Str) : Bool :=
  decide (i + 2 < n) && containsCl (("Table").data) line &&
    containsCl ((":").data) line

def gEquationB (line : Str) : Bool := detect_equation (pyStrip line)

def gSectionB (line : Str) : Bool :=
  let ls := pyStrip line
  sectionShape ls && decide (ls.length < 80) &&
    (isupperStr ls || startsNumUpper ls || (decide (ls.length < 50) && istitle ls))

def gSubsectionB (line : Str) : Bool := subsectionShape (pyStrip line)

def gBulletB (line : Str) : Bool := bulletShape (pyStrip line)

def guardOf (st : PState) (i n : Nat) (line : Str) : Branch → Bool :=
  guard9 (gBlankB line) (gTitleB st.titleFound i line)
    (gAuthorB st.titleFound st.metadataSection i line) (gAbstractB line)
    (gTableB i n line) (gEquationB line) (gSectionB line) (gSubsectionB line)
    (gBulletB line)

def classify (st : PState) (i n : Nat) (line : Str) : Branch :=
  classify9 (gBlankB line) (gTitleB st.titleFound i line)
    (gAuthorB st.titleFound st.metadataSection i line) (gAbstractB line)
    (gTableB i n line) (gEquationB line) (gSectionB line) (gSubsectionB line)
    (gBulletB line)

def branchAt (st : PState) (i n : Nat) (line : Str) (b : Branch) : Prop :=
  branchAt9 (gBlankB line) (gTitleB st.titleFound i line)
    (gAuthorB st.titleFound st.metadataSection i line) (gAbstractB line)
    (gTableB i n line) (gEquationB line) (gSectionB line) (gSubsectionB line)
    (gBulletB line) b

/- State transformers of the scan, one per side effect in the source. -/

/- Python truthiness of the optional-string metadata fields. -/
def falsyO : Option Str → Bool
  | none => true
  | some v => v.isEmpty

def venueMaybe (st : PState) (ls : Str) : PState :=
  if falsyO st.venue && !containsChar '@' ls then { st with venue := some ls } else st

def accumAbstract (st : PState) (ls : Str) : PState :=
  match st.abstract with
  | none => { st with abstract := some ls }
  | some a =>
    if a.isEmpty then { st with abstract := some ls }
    else if decide (a.length < 500) && !ls.isEmpty then
      { st with abstract := some (a ++ ' ' :: ls) }
    else st

def dropSpaces (l : Str) : Str := l.dropWhile (fun c => c = ' ')

/- re.split on the pattern of one comma or a run of two or more spaces.
The fuel argument only serves termination; it starts at the length of the
line, which one recursive step never consumes more than. -/
def splitAuthorsAux : Nat → Str → Str → List Str
  | _, cur, [] => [cur.reverse]
  | Nat.succ f, cur, ',' :: rest => cur.reverse :: splitAuthorsAux f [] rest
  | Nat.succ f, cur, ' ' :: ' ' :: rest => cur.reverse :: splitAuthorsAux f [] (dropSpaces rest)
  | Nat.succ f, cur, c :: rest => splitAuthorsAux f (c :: cur) rest
  | 0, cur, rest => [cur.reverse ++ rest]

def splitAuthors (l : Str) : List Str := splitAuthorsAux l.length [] l

def memStr (a : Str) (l : List Str) : Bool := l.any (fun x => decide (x = a))

/- The test replace(' ', '').replace('.', '').replace('-', '').isalpha()
on a candidate author. -/
def alphaFilteredOk (a : Str) : Bool :=
  let f := a.filter (fun c => !(c = ' ' || c = '.' || c = '-'))
  !f.isEmpty && f.all Char.isAlpha

def pushAuthor (acc : List Str) (a : Str) : List Str :=
  if memStr a acc then acc else acc ++ [a]

def appendAuthorsMulti (authors : List Str) (ls : Str) : List Str :=
  (splitAuthors ls).foldl
    (fun acc raw =>
      let a := pyStrip raw
      if !a.isEmpty && decide (3 < a.length) && alphaFilteredOk a then pushAuthor acc a
      else acc)
    authors

def appendAuthors (authors : List Str) (ls : Str) : List Str :=
  if containsChar ',' ls || containsCl (("  ").data) ls then
    appendAuthorsMulti authors ls
  else if alphaFilteredOk ls then pushAuthor authors ls
  else authors

def fallInstB (st : PState) (i : Nat) (ls : Str) : Bool :=
  decide (i < 40) && st.metadataSection && isInstitutionB ls && !isContentB ls

def startsAbstractStop (lsl : Str) : Bool :=
  startsWithCl (("introduction").data) lsl || startsWithCl (("1 ").data) lsl ||
    startsWithCl (("2 ").data) lsl

/- format_paragraph, src/parse_paper.py lines 296-317. -/

def spaceJoin (ls : List Str) : Str := List.intercalate ([' ']) ls

def fpAux (cur : List Str) : List Str → List Str
  | [] => if cur.isEmpty then [] else [spaceJoin cur.reverse]
  | l :: ls =>
    let t := pyStrip l
    if t.isEmpty then
      (if cur.isEmpty then [] else [spaceJoin cur.reverse]) ++ (([] : Str) :: fpAux [] ls)
    else fpAux (t :: cur) ls

def format_paragraph (ls : List Str) : List Str :=
  if ls.isEmpty then [] else (fpAux [] ls).map (fun p => p ++ ['\n'])

/- The fragment texts emitted per branch. -/

def abstractFrag : Str := ("\n## Abstract\n\n").data

def tableFrag (ls : Str) : Str := ("\n**").data ++ ls ++ ("**\n\n").data

def eqFrag (ls : Str) : Str := ("\n").data ++ clean_equation ls ++ ("\n\n").data

def secFrag (ls : Str) : Str := ("\n## ").data ++ ls ++ ("\n\n").data

def subFrag (ls : Str) : Str := ("\n### ").data ++ ls ++ ("\n\n").data

def bulFrag (ls : Str) : Str := ls ++ ['\n']

/- The per-branch effects of the scan loop, one definition per consuming
branch of the source. -/

def stepBlank (st : PState) : PState :=
  if st.buffer.isEmpty then st else { st with buffer := st.buffer ++ [([] : Str)] }

def stepTitle (st : PState) (ls : Str) : PState :=
  { st with
    title := (if falsyO st.title then some ls else st.title),
    titleFound := true }

def stepAuthorAffil (st : PState) (ls : Str) : PState :=
  if authorCaseB st.titleFound ls then { st with authors := appendAuthors st.authors ls }
  else venueMaybe st ls

/- Flush the paragraph buffer into the fragment list and emit one more
fragment after it. -/
def emitFlush (st : PState) (frag : Str) : PState :=
  { st with result := st.result ++ format_paragraph st.buffer ++ [frag], buffer := [] }

def stepAbstractHeader (st : PState) : PState :=
  { emitFlush st abstractFrag with metadataSection := false, inAbstract := true }

/- Abstract-body accumulation, the one clause of the loop that falls
through to the later branches. -/
def abstractPhase (st : PState) (ls : Str) : PState :=
  if st.inAbstract && !startsAbstractStop (lowerL ls) then
    (if sectionShape ls then { st with inAbstract := false } else accumAbstract st ls)
  else st

def stepTable (st : PState) (i n : Nat) (ls : Str) : PState :=
  { emitFlush st (tableFrag ls) with skipLines := min 10 (n - i) }

def stepSection (st : PState) (ls : Str) : PState :=
  { emitFlush st (secFrag ls) with
    inReferences := st.inReferences || containsCl (("reference").data) (lowerL ls) }

/- The branches checked after the abstract-accumulation clause. Their
guards read nothing from the state. -/
def stepTail (st : PState) (i n : Nat) (line ls : Str) : PState :=
  if gTableB i n line then stepTable st i n ls
  else if gEquationB line then emitFlush st (eqFrag ls)
  else if gSectionB line then stepSection st ls
  else if gSubsectionB line then emitFlush st (subFrag ls)
  else if gBulletB line then emitFlush st (bulFrag ls)
  else { st with buffer := st.buffer ++ [ls] }

/- One iteration of the scan loop of parse_structure, for the line at
0-based index i in a document of n lines. -/
def step (st : PState) (i n : Nat) (line : Str) : PState :=
  if st.skipLines ≠ 0 then { st with skipLines := st.skipLines - 1 }
  else
    let ls := pyStrip line
    if gBlankB line then stepBlank st
    else if gTitleB st.titleFound i line then stepTitle st ls
    else if gAuthorB st.titleFound st.metadataSection i line then stepAuthorAffil st ls
    else
      let st1 := if fallInstB st i ls then venueMaybe st ls else st
      if gAbstractB line then stepAbstractHeader st1
      else stepTail (abstractPhase st1 ls) i n line ls

def scanFrom (n : Nat) : PState → Nat → List Str → PState
  | st, _, [] => st
  | st, i, l :: ls => scanFrom n (step st i n l) (i + 1) ls

def mkInit (title : Option Str) (authors : List Str)
    (year venue abstract : Option Str) : PState :=
  { result := [], buffer := [], inAbstract := false, inReferences := false,
    skipLines := 0, titleFound := false, metadataSection := true,
    title := title, authors := authors, year := year, venue := venue,
    abstract := abstract }

/- parse_structure over a pre-split list of lines, ending with the final
paragraph flush of the loop epilogue. -/
def parse_structure (st : PState) (lines : List Str) : PState :=
  let fin := scanFrom lines.length st 0 lines
  { fin with result := fin.result ++ format_paragraph fin.buffer, buffer := [] }

/- extract_text_with_structure, src/parse_paper.py lines 29-44: the
container-metadata phase. find_year is the regex search for the first run
of four digits in the creation date. -/
def find_year : Str → Option Str
  | a :: b :: c :: d :: rest =>
    if a.isDigit && b.isDigit && c.isDigit && d.isDigit then some [a, b, c, d]
    else find_year (b :: c :: d :: rest)
  | _ => none

def container_fill (ctitle cauthor cdate : Option Str) : PState :=
  let s0 := mkInit none [] none none none
  let s1 := if truthyS ctitle then { s0 with title := ctitle } else s0
  let s2 := if truthyS cauthor then { s1 with authors := [cauthor.getD []] } else s1
  if truthyS cdate then
    (match find_year (cdate.getD []) with
     | some y => { s2 with year := some y }
     | none => s2)
  else s2

def extract_with_structure (ctitle cauthor cdate : Option Str)
    (lines : List Str) : PState :=
  parse_structure (container_fill ctitle cauthor cdate) lines

/- Field-preservation lemmas for the two metadata transformers. -/

@[simp] lemma venueMaybe_result (st : PState) (ls : Str) :
    (venueMaybe st ls).result = st.result := by
  unfold venueMaybe; split <;> rfl

@[simp] lemma venueMaybe_buffer (st : PState) (ls : Str) :
    (venueMaybe st ls).buffer = st.buffer := by
  unfold venueMaybe; split <;> rfl

@[simp] lemma venueMaybe_inAbstract (st : PState) (ls : Str) :
    (venueMaybe st ls).inAbstract = st.inAbstract := by
  unfold venueMaybe; split <;> rfl

@[simp] lemma venueMaybe_inReferences (st : PState) (ls : Str) :
    (venueMaybe st ls).inReferences = st.inReferences := by
  unfold venueMaybe; split <;> rfl

@[simp] lemma venueMaybe_skipLines (st : PState) (ls : Str) :
    (venueMaybe st ls).skipLines = st.skipLines := by
  unfold venueMaybe; split <;> rfl

@[simp] lemma venueMaybe_titleFound (st : PState) (ls : Str) :
    (venueMaybe st ls).titleFound = st.titleFound := by
  unfold venueMaybe; split <;> rfl

@[simp] lemma venueMaybe_metadataSection (st : PState) (ls : Str) :
    (venueMaybe st ls).metadataSection = st.metadataSection := by
  unfold venueMaybe; split <;> rfl

@[simp] lemma venueMaybe_title (st : PState) (ls : Str) :
    (venueMaybe st ls).title = st.title := by
  unfold venueMaybe; split <;> rfl

@[simp] lemma venueMaybe_authors (st : PState) (ls : Str) :
    (venueMaybe st ls).authors = st.authors := by
  unfold venueMaybe; split <;> rfl

@[simp] lemma venueMaybe_year (st : PState) (ls : Str) :
    (venueMaybe st ls).year = st.year := by
  unfold venueMaybe; split <;> rfl

@[simp] lemma venueMaybe_abstract (st : PState) (ls : Str) :
    (venueMaybe st ls).abstract = st.abstract := by
  unfold venueMaybe; split <;> rfl

@[simp] lemma accumAbstract_result (st : PState) (ls : Str) :
    (accumAbstract st ls).result = st.result := by
  cases h : st.abstract <;> simp only [accumAbstract, h] <;> (try split_ifs) <;> rfl

@[simp] lemma accumAbstract_buffer (st : PState) (ls : Str) :
    (accumAbstract st ls).buffer = st.buffer := by
  cases h : st.abstract <;> simp only [accumAbstract, h] <;> (try split_ifs) <;> rfl

@[simp] lemma accumAbstract_inAbstract (st : PState) (ls : Str) :
    (accumAbstract st ls).inAbstract = st.inAbstract := by
  cases h : st.abstract <;> simp only [accumAbstract, h] <;> (try split_ifs) <;> rfl

@[simp] lemma accumAbstract_inReferences (st : PState) (ls : Str) :
    (accumAbstract st ls).inReferences = st.inReferences := by
  cases h : st.abstract <;> simp only [accumAbstract, h] <;> (try split_ifs) <;> rfl

@[simp] lemma accumAbstract_skipLines (st : PState) (ls : Str) :
    (accumAbstract st ls).skipLines = st.skipLines := by
  cases h : st.abstract <;> simp only [accumAbstract, h] <;> (try split_ifs) <;> rfl

@[simp] lemma accumAbstract_titleFound (st : PState) (ls : Str) :
    (accumAbstract st ls).titleFound = st.titleFound := by
  cases h : st.abstract <;> simp only [accumAbstract, h] <;> (try split_ifs) <;> rfl

@[simp] lemma accumAbstract_metadataSection (st : PState) (ls : Str) :
    (accumAbstract st ls).metadataSection = st.metadataSection := by
  cases h : st.abstract <;> simp only [accumAbstract, h] <;> (try split_ifs) <;> rfl

@[simp] lemma accumAbstract_title (st : PState) (ls : Str) :
    (accumAbstract st ls).title = st.title := by
  cases h : st.abstract <;> simp only [accumAbstract, h] <;> (try split_ifs) <;> rfl

@[simp] lemma accumAbstract_authors (st : PState) (ls : Str) :
    (accumAbstract st ls).authors = st.authors := by
  cases h : st.abstract <;> simp only [accumAbstract, h] <;> (try split_ifs) <;> rfl

@[simp] lemma accumAbstract_year (st : PState) (ls : Str) :
    (accumAbstract st ls).year = st.year := by
  cases h : st.abstract <;> simp only [accumAbstract, h] <;> (try split_ifs) <;> rfl

@[simp] lemma accumAbstract_venue (st : PState) (ls : Str) :
    (accumAbstract st ls).venue = st.venue := by
  cases h : st.abstract <;> simp only [accumAbstract, h] <;> (try split_ifs) <;> rfl

/- Author-list lemmas: appends only extend the list at the end and never
introduce a duplicate. -/

lemma pushAuthor_ext (acc : List Str) (a : Str) :
    ∃ suf, pushAuthor acc a = acc ++ suf := by
  unfold pushAuthor
  split
  · exact ⟨[], by simp⟩
  · exact ⟨[a], rfl⟩

lemma mem_of_memStr {a : Str} {l : List Str} (h : a ∈ l) : memStr a l = true := by
  simp only [memStr, List.any_eq_true, decide_eq_true_eq]
  exact ⟨a, h, rfl⟩

lemma pushAuthor_nodup {acc : List Str} (a : Str) (h : acc.Nodup) :
    (pushAuthor acc a).Nodup := by
  unfold pushAuthor
  split
  · exact h
  · next hmem =>
    have hnotin : a ∉ acc := fun hin => hmem (mem_of_memStr hin)
    simp [List.nodup_append, h, hnotin]

lemma foldl_pushAuthor_ext (f : List Str → Str → List Str)
    (hf : ∀ acc a, ∃ s, f acc a = acc ++ s) :
    ∀ (cands : List Str) (A : List Str), ∃ suf, List.foldl f A cands = A ++ suf := by
  intro cands
  induction cands with
  | nil => intro A; exact ⟨[], by simp⟩
  | cons c cs ih =>
    intro A
    obtain ⟨s1, hs1⟩ := hf A c
    obtain ⟨s2, hs2⟩ := ih (f A c)
    rw [hs1] at hs2
    exact ⟨s1 ++ s2, by simp [List.foldl_cons, hs1, hs2, List.append_assoc]⟩

lemma foldl_pushAuthor_nodup (f : List Str → Str → List Str)
    (hf : ∀ acc a, acc.Nodup → (f acc a).Nodup) :
    ∀ (cands : List Str) (A : List Str), A.Nodup → (List.foldl f A cands).Nodup := by
  intro cands
  induction cands with
  | nil => intro A h; exact h
  | cons c cs ih => intro A h; exact ih (f A c) (hf A c h)

lemma appendAuthors_ext (A : List Str) (ls : Str) :
    ∃ suf, appendAuthors A ls = A ++ suf := by
  unfold appendAuthors
  split_ifs
  · exact foldl_pushAuthor_ext _
      (fun acc a => by
        dsimp only
        split
        · exact pushAuthor_ext acc (pyStrip a)
        · exact ⟨[], by simp⟩) _ A
  · exact pushAuthor_ext A ls
  · exact ⟨[], by simp⟩

lemma appendAuthors_nodup {A : List Str} (ls : Str) (h : A.Nodup) :
    (appendAuthors A ls).Nodup := by
  unfold appendAuthors
  split_ifs
  · exact foldl_pushAuthor_nodup _
      (fun acc a hacc => by
        dsimp only
        split
        · exact pushAuthor_nodup (pyStrip a) hacc
        · exact hacc) _ A h
  · exact pushAuthor_nodup ls h
  · exact h

/- Field lemmas for the branch handlers. -/

@[simp] lemma stepBlank_year (st : PState) : (stepBlank st).year = st.year := by
  unfold stepBlank; split <;> rfl

@[simp] lemma stepBlank_title (st : PState) : (stepBlank st).title = st.title := by
  unfold stepBlank; split <;> rfl

@[simp] lemma stepBlank_titleFound (st : PState) :
    (stepBlank st).titleFound = st.titleFound := by
  unfold stepBlank; split <;> rfl

@[simp] lemma stepBlank_venue (st : PState) : (stepBlank st).venue = st.venue := by
  unfold stepBlank; split <;> rfl

@[simp] lemma stepBlank_authors (st : PState) : (stepBlank st).authors = st.authors := by
  unfold stepBlank; split <;> rfl

@[simp] lemma stepBlank_abstract (st : PState) :
    (stepBlank st).abstract = st.abstract := by
  unfold stepBlank; split <;> rfl

@[simp] lemma stepTitle_year (st : PState) (ls : Str) :
    (stepTitle st ls).year = st.year := rfl

@[simp] lemma stepTitle_venue (st : PState) (ls : Str) :
    (stepTitle st ls).venue = st.venue := rfl

@[simp] lemma stepTitle_authors (st : PState) (ls : Str) :
    (stepTitle st ls).authors = st.authors := rfl

@[simp] lemma stepTitle_abstract (st : PState) (ls : Str) :
    (stepTitle st ls).abstract = st.abstract := rfl

@[simp] lemma stepAuthorAffil_year (st : PState) (ls : Str) :
    (stepAuthorAffil st ls).year = st.year := by
  unfold stepAuthorAffil; split <;> simp

@[simp] lemma stepAuthorAffil_title (st : PState) (ls : Str) :
    (stepAuthorAffil st ls).title = st.title := by
  unfold stepAuthorAffil; split <;> simp

@[simp] lemma stepAuthorAffil_titleFound (st : PState) (ls : Str) :
    (stepAuthorAffil st ls).titleFound = st.titleFound := by
  unfold stepAuthorAffil; split <;> simp

@[simp] lemma stepAuthorAffil_abstract (st : PState) (ls : Str) :
    (stepAuthorAffil st ls).abstract = st.abstract := by
  unfold stepAuthorAffil; split <;> simp

@[simp] lemma emitFlush_year (st : PState) (frag : Str) :
    (emitFlush st frag).year = st.year := rfl

@[simp] lemma emitFlush_title (st : PState) (frag : Str) :
    (emitFlush st frag).title = st.title := rfl

@[simp] lemma emitFlush_titleFound (st : PState) (frag : Str) :
    (emitFlush st frag).titleFound = st.titleFound := rfl

@[simp] lemma emitFlush_venue (st : PState) (frag : Str) :
    (emitFlush st frag).venue = st.venue := rfl

@[simp] lemma emitFlush_authors (st : PState) (frag : Str) :
    (emitFlush st frag).authors = st.authors := rfl

@[simp] lemma emitFlush_abstract (st : PState) (frag : Str) :
    (emitFlush st frag).abstract = st.abstract := rfl

@[simp] lemma emitFlush_metadataSection (st : PState) (frag : Str) :
    (emitFlush st frag).metadataSection = st.metadataSection := rfl

@[simp] lemma stepAbstractHeader_year (st : PState) :
    (stepAbstractHeader st).year = st.year := rfl

@[simp] lemma stepAbstractHeader_title (st : PState) :
    (stepAbstractHeader st).title = st.title := rfl

@[simp] lemma stepAbstractHeader_titleFound (st : PState) :
    (stepAbstractHeader st).titleFound = st.titleFound := rfl

@[simp] lemma stepAbstractHeader_venue (st : PState) :
    (stepAbstractHeader st).venue = st.venue := rfl

@[simp] lemma stepAbstractHeader_authors (st : PState) :
    (stepAbstractHeader st).authors = st.authors := rfl

@[simp] lemma stepAbstractHeader_abstract (st : PState) :
    (stepAbstractHeader st).abstract = st.abstract := rfl

@[simp] lemma abstractPhase_year (st : PState) (ls : Str) :
    (abstractPhase st ls).year = st.year := by
  unfold abstractPhase; split_ifs <;> simp

@[simp] lemma abstractPhase_title (st : PState) (ls : Str) :
    (abstractPhase st ls).title = st.title := by
  unfold abstractPhase; split_ifs <;> simp

@[simp] lemma abstractPhase_titleFound (st : PState) (ls : Str) :
    (abstractPhase st ls).titleFound = st.titleFound := by
  unfold abstractPhase; split_ifs <;> simp

@[simp] lemma abstractPhase_venue (st : PState) (ls : Str) :
    (abstractPhase st ls).venue = st.venue := by
  unfold abstractPhase; split_ifs <;> simp

@[simp] lemma abstractPhase_authors (st : PState) (ls : Str) :
    (abstractPhase st ls).authors = st.authors := by
  unfold abstractPhase; split_ifs <;> simp

@[simp] lemma abstractPhase_metadataSection (st : PState) (ls : Str) :
    (abstractPhase st ls).metadataSection = st.metadataSection := by
  unfold abstractPhase; split_ifs <;> simp

@[simp] lemma abstractPhase_result (st : PState) (ls : Str) :
    (abstractPhase st ls).result = st.result := by
  unfold abstractPhase; split_ifs <;> simp

@[simp] lemma abstractPhase_buffer (st : PState) (ls : Str) :
    (abstractPhase st ls).buffer = st.buffer := by
  unfold abstractPhase; split_ifs <;> simp

@[simp] lemma abstractPhase_skipLines (st : PState) (ls : Str) :
    (abstractPhase st ls).skipLines = st.skipLines := by
  unfold abstractPhase; split_ifs <;> simp

@[simp] lemma stepTail_year (st : PState) (i n : Nat) (line ls : Str) :
    (stepTail st i n line ls).year = st.year := by
  unfold stepTail stepTable stepSection; split_ifs <;> simp

@[simp] lemma stepTail_title (st : PState) (i n : Nat) (line ls : Str) :
    (stepTail st i n line ls).title = st.title := by
  unfold stepTail stepTable stepSection; split_ifs <;> simp

@[simp] lemma stepTail_titleFound (st : PState) (i n : Nat) (line ls : Str) :
    (stepTail st i n line ls).titleFound = st.titleFound := by
  unfold stepTail stepTable stepSection; split_ifs <;> simp

@[simp] lemma stepTail_venue (st : PState) (i n : Nat) (line ls : Str) :
    (stepTail st i n line ls).venue = st.venue := by
  unfold stepTail stepTable stepSection; split_ifs <;> simp

@[simp] lemma stepTail_authors (st : PState) (i n : Nat) (line ls : Str) :
    (stepTail st i n line ls).authors = st.authors := by
  unfold stepTail stepTable stepSection; split_ifs <;> simp

@[simp] lemma stepTail_abstract (st : PState) (i n : Nat) (line ls : Str) :
    (stepTail st i n line ls).abstract = st.abstract := by
  unfold stepTail stepTable stepSection; split_ifs <;> simp

@[simp] lemma stepTail_metadataSection (st : PState) (i n : Nat) (line ls : Str) :
    (stepTail st i n line ls).metadataSection = st.metadataSection := by
  unfold stepTail stepTable stepSection; split_ifs <;> simp

/- Per-step invariants of the scan. -/

lemma step_year (st : PState) (i n : Nat) (line : Str) :
    (step st i n line).year = st.year := by
  simp only [step]
  split_ifs <;> first
    | (simp; done)
    | (rw [stepTail_year, abstractPhase_year]; split <;> simp)

lemma step_title_pres (st : PState) (i n : Nat) (line : Str) (c : Char) (t : Str)
    (h : st.title = some (c :: t)) :
    (step st i n line).title = some (c :: t) := by
  simp only [step]
  split_ifs <;> first
    | (simp [h]; done)
    | (simp [stepTitle, h, falsyO]; done)
    | (rw [stepTail_title, abstractPhase_title]; split <;> simp [h])

lemma venueMaybe_venue_pres (st : PState) (ls : Str) (c : Char) (t : Str)
    (h : st.venue = some (c :: t)) :
    (venueMaybe st ls).venue = st.venue := by
  simp [venueMaybe, h, falsyO]

lemma step_venue_cases (st : PState) (i n : Nat) (line : Str) :
    (step st i n line).venue = st.venue ∨
      (step st i n line).venue = (venueMaybe st (pyStrip line)).venue := by
  simp only [step]
  split_ifs <;> first
    | (left; simp; done)
    | (right; simp; done)
    | (unfold stepAuthorAffil
       split
       · left; simp
       · right; simp)

lemma step_venue_pres (st : PState) (i n : Nat) (line : Str) (c : Char) (t : Str)
    (h : st.venue = some (c :: t)) :
    (step st i n line).venue = some (c :: t) := by
  rcases step_venue_cases st i n line with h2 | h2
  · rw [h2, h]
  · rw [h2, venueMaybe_venue_pres st (pyStrip line) c t h, h]

lemma step_authors_cases (st : PState) (i n : Nat) (line : Str) :
    (step st i n line).authors = st.authors ∨
      (step st i n line).authors = appendAuthors st.authors (pyStrip line) := by
  simp only [step]
  split_ifs <;> first
    | (left; simp; done)
    | (unfold stepAuthorAffil
       split
       · right; simp
       · left; simp)

lemma step_authors_ext (st : PState) (i n : Nat) (line : Str) :
    ∃ suf, (step st i n line).authors = st.authors ++ suf := by
  rcases step_authors_cases st i n line with h | h
  · exact ⟨[], by rw [h, List.append_nil]⟩
  · obtain ⟨suf, hs⟩ := appendAuthors_ext st.authors (pyStrip line)
    exact ⟨suf, by rw [h, hs]⟩

lemma step_authors_nodup (st : PState) (i n : Nat) (line : Str)
    (h : st.authors.Nodup) :
    (step st i n line).authors.Nodup := by
  rcases step_authors_cases st i n line with h2 | h2
  · rw [h2]; exact h
  · rw [h2]; exact appendAuthors_nodup _ h

def abstractLen (st : PState) : Nat := (st.abstract.getD []).length

lemma accumAbstract_mono (st : PState) (ls : Str) :
    abstractLen st ≤ abstractLen (accumAbstract st ls) := by
  unfold abstractLen
  cases h : st.abstract with
  | none => simp
  | some a =>
    simp only [accumAbstract, h, Option.getD_some]
    split_ifs with h1 h2
    · simp_all
    · simp
    · simp [h]

lemma accumAbstract_frozen (st : PState) (ls : Str) (h : 500 ≤ abstractLen st) :
    (accumAbstract st ls).abstract = st.abstract := by
  unfold abstractLen at h
  cases ha : st.abstract with
  | none => rw [ha] at h; simp at h
  | some a =>
    rw [ha] at h
    simp only [Option.getD_some] at h
    simp only [accumAbstract, ha]
    split_ifs with h1 h2
    · exfalso
      rw [List.isEmpty_iff] at h1
      subst h1
      simp at h
    · exfalso
      simp only [Bool.and_eq_true, decide_eq_true_eq] at h2
      omega
    · exact ha

lemma abstractPhase_mono (st : PState) (ls : Str) :
    abstractLen st ≤ abstractLen (abstractPhase st ls) := by
  unfold abstractPhase
  split_ifs
  · simp [abstractLen]
  · exact accumAbstract_mono st ls
  · exact le_rfl

lemma abstractPhase_frozen (st : PState) (ls : Str) (h : 500 ≤ abstractLen st) :
    (abstractPhase st ls).abstract = st.abstract := by
  unfold abstractPhase
  split_ifs
  · rfl
  · exact accumAbstract_frozen st ls h
  · rfl

lemma step_abstract_cases (st : PState) (i n : Nat) (line : Str) :
    (step st i n line).abstract = st.abstract ∨
      ∃ x : PState, x.abstract = st.abstract ∧
        (step st i n line).abstract = (abstractPhase x (pyStrip line)).abstract := by
  simp only [step]
  split_ifs <;> first
    | (left; simp; done)
    | (refine Or.inr ⟨venueMaybe st (pyStrip line), by simp, ?_⟩
       rw [stepTail_abstract]
       done)
    | (refine Or.inr ⟨st, rfl, ?_⟩
       rw [stepTail_abstract]
       done)

lemma step_abstract_mono (st : PState) (i n : Nat) (line : Str) :
    abstractLen st ≤ abstractLen (step st i n line) := by
  rcases step_abstract_cases st i n line with h | ⟨x, hx, h⟩
  · unfold abstractLen
    rw [h]
  · have hm := abstractPhase_mono x (pyStrip line)
    unfold abstractLen at hm ⊢
    rw [h, ← hx]
    exact hm

lemma step_abstract_frozen (st : PState) (i n : Nat) (line : Str)
    (h : 500 ≤ abstractLen st) :
    (step st i n line).abstract = st.abstract := by
  rcases step_abstract_cases st i n line with h2 | ⟨x, hx, h2⟩
  · exact h2
  · have hfx : 500 ≤ abstractLen x := by
      unfold abstractLen
      rw [hx]
      exact h
    rw [h2, abstractPhase_frozen x (pyStrip line) hfx, hx]

/- The same invariants lifted along the whole scan. -/

lemma scan_year (lines : List Str) : ∀ (n : Nat) (st : PState) (i : Nat),
    (scanFrom n st i lines).year = st.year := by
  induction lines with
  | nil => intro n st i; rfl
  | cons l ls ih =>
    intro n st i
    simp only [scanFrom]
    rw [ih n (step st i n l) (i + 1), step_year]

lemma scan_title_pres (lines : List Str) : ∀ (n : Nat) (st : PState) (i : Nat)
    (c : Char) (t : Str), st.title = some (c :: t) →
    (scanFrom n st i lines).title = some (c :: t) := by
  induction lines with
  | nil => intro n st i c t h; exact h
  | cons l ls ih =>
    intro n st i c t h
    simp only [scanFrom]
    exact ih n (step st i n l) (i + 1) c t (step_title_pres st i n l c t h)

lemma scan_venue_pres (lines : List Str) : ∀ (n : Nat) (st : PState) (i : Nat)
    (c : Char) (t : Str), st.venue = some (c :: t) →
    (scanFrom n st i lines).venue = some (c :: t) := by
  induction lines with
  | nil => intro n st i c t h; exact h
  | cons l ls ih =>
    intro n st i c t h
    simp only [scanFrom]
    exact ih n (step st i n l) (i + 1) c t (step_venue_pres st i n l c t h)

lemma scan_authors_ext (lines : List Str) : ∀ (n : Nat) (st : PState) (i : Nat),
    ∃ suf, (scanFrom n st i lines).authors = st.authors ++ suf := by
  induction lines with
  | nil => intro n st i; exact ⟨[], by simp [scanFrom]⟩
  | cons l ls ih =>
    intro n st i
    obtain ⟨s1, hs1⟩ := step_authors_ext st i n l
    obtain ⟨s2, hs2⟩ := ih n (step st i n l) (i + 1)
    refine ⟨s1 ++ s2, ?_⟩
    simp only [scanFrom]
    rw [hs2, hs1, List.append_assoc]

lemma scan_authors_nodup (lines : List Str) : ∀ (n : Nat) (st : PState) (i : Nat),
    st.authors.Nodup → (scanFrom n st i lines).authors.Nodup := by
  induction lines with
  | nil => intro n st i h; exact h
  | cons l ls ih =>
    intro n st i h
    exact ih n (step st i n l) (i + 1) (step_authors_nodup st i n l h)

lemma scan_abstract_mono (lines : List Str) : ∀ (n : Nat) (st : PState) (i : Nat),
    abstractLen st ≤ abstractLen (scanFrom n st i lines) := by
  induction lines with
  | nil => intro n st i; exact le_rfl
  | cons l ls ih =>
    intro n st i
    exact le_trans (step_abstract_mono st i n l) (ih n (step st i n l) (i + 1))

lemma scan_abstract_frozen (lines : List Str) : ∀ (n : Nat) (st : PState) (i : Nat),
    500 ≤ abstractLen st → (scanFrom n st i lines).abstract = st.abstract := by
  induction lines with
  | nil => intro n st i _; rfl
  | cons l ls ih =>
    intro n st i h
    have hs := step_abstract_frozen st i n l h
    have hlen : 500 ≤ abstractLen (step st i n l) := by
      unfold abstractLen
      rw [hs]
      exact h
    simp only [scanFrom]
    rw [ih n (step st i n l) (i + 1) hlen, hs]

/- Guard-window extraction lemmas. -/

lemma gTitleB_window {tf : Bool} {i : Nat} {line : Str} (h : gTitleB tf i line = true) :
    i < 15 ∧ tf = false := by
  simp only [gTitleB, Bool.and_eq_true, Bool.not_eq_true', decide_eq_true_eq] at h
  exact ⟨h.1.1.1.1.2, h.1.1.1.1.1⟩

lemma gAuthorB_window {tf ms : Bool} {i : Nat} {line : Str}
    (h : gAuthorB tf ms i line = true) : i < 40 ∧ ms = true := by
  simp only [gAuthorB, Bool.and_eq_true, decide_eq_true_eq] at h
  exact ⟨h.1.1, h.1.2⟩

lemma fallInstB_window {st : PState} {i : Nat} {ls : Str}
    (h : fallInstB st i ls = true) : i < 40 ∧ st.metadataSection = true := by
  simp only [fallInstB, Bool.and_eq_true, decide_eq_true_eq] at h
  exact ⟨h.1.1.1, h.1.1.2⟩

/- Which branches can touch the title fields, and which the author and
venue fields. -/

lemma step_title_cases (st : PState) (i n : Nat) (line : Str) :
    ((step st i n line).title = st.title ∧
      (step st i n line).titleFound = st.titleFound) ∨
      (gTitleB st.titleFound i line = true ∧ st.skipLines = 0) := by
  simp only [step]
  split_ifs <;> first
    | (left; constructor <;> simp; done)
    | (right; exact ⟨by assumption, by omega⟩)

lemma step_av_cases (st : PState) (i n : Nat) (line : Str) :
    ((step st i n line).authors = st.authors ∧
      (step st i n line).venue = st.venue) ∨
      ((gAuthorB st.titleFound st.metadataSection i line = true ∨
        fallInstB st i (pyStrip line) = true) ∧ st.skipLines = 0) := by
  simp only [step]
  split_ifs <;> first
    | (left; constructor <;> simp; done)
    | (right
       refine ⟨?_, by omega⟩
       first | (left; assumption) | (right; assumption))

/- Concrete documents and states used in the claim theorems. -/

def proseLine : Str := ("some plain words here and more words").data

def bodySt : PState :=
  { mkInit none [] none none none with titleFound := true, metadataSection := false }

def cst9 : PState := { mkInit none [] none none none with titleFound := true }

def authorLine : Str := ("Alice Smith, Bob Jones").data

def titleLine : Str := ("A Wonderful Treatise On Gadgets").data

def abstractLine : Str := ("abstract").data

def tableLine : Str := ("Table 1: Results").data

def ctC : Option Str := some (("Paper T").data)

def caC : Option Str := some (("Jane Container").data)

def cdC : Option Str := some (("D:20230405120000").data)

def c2lines : List Str := [titleLine, authorLine]

def c3lines : List Str := [abstractLine, List.replicate 600 'x']

def c3fin : PState := parse_structure (mkInit none [] none none none) c3lines

def frozenSt : PState :=
  { mkInit none [] none none (some (List.replicate 500 'a')) with
    inAbstract := true, metadataSection := false }

def c4mid : PState := step (mkInit none [] none none none) 0 2 abstractLine

def c5lines : List Str := [titleLine, abstractLine, tableLine]

def c5fin : PState := parse_structure (mkInit none [] none none none) c5lines

def c5stB : PState := { mkInit none [] none none none with skipLines := 3 }

/-- Claim C1: on every processed line (skip windows aside) exactly one
classification branch of the priority order blank, title,
author-affiliation, abstract header, table, equation, major section,
subsection, bullet, paragraph applies: the classifier, a total function of
arbitrary string input, picks the branch whose guard holds while every
higher-priority guard fails, and that branch is unique. -/
theorem c1_branch_exclusive (st : PState) (i n : Nat) (line : Str) :
    branchAt st i n line (classify st i n line) ∧
      ∀ b, branchAt st i n line b → b = classify st i n line :=
  classify9_spec _ _ _ _ _ _ _ _ _

/-- Claim C1, witness: on a concrete plain prose line in the document body
the unique branch is the paragraph fallback. -/
theorem c1_branch_exclusive_witness :
    Branch.paragraph = classify bodySt 20 21 proseLine := by
  refine (c1_branch_exclusive bodySt 20 21 proseLine).2 Branch.paragraph ⟨by decide, ?_⟩
  intro b2 hb2
  cases b2 <;> first
    | (exact absurd hb2 (by decide))
    | decide

/-- Claim C2, counterexample: with container author "Jane Container"
recorded before the scan, the in-text author detection extends the authors
list during the line scan, so the field does not equal the container value
afterwards. -/
theorem c2_container_cex :
    (container_fill ctC caC cdC).authors = [("Jane Container").data] ∧
    (extract_with_structure ctC caC cdC c2lines).authors
      = [("Jane Container").data, ("Alice Smith").data, ("Bob Jones").data] ∧
    (extract_with_structure ctC caC cdC c2lines).authors
      ≠ (container_fill ctC caC cdC).authors :=
  ⟨by decide, by decide, by decide⟩

/-- Claim C2, amended: container metadata is recorded before the scan; the
scan never changes year, never overwrites a nonempty title or venue, and
only ever appends to the authors list, so container authors survive as a
prefix but the list can be extended by in-text detection. -/
theorem c2_container_amended :
    (∀ (lines : List Str) (A : List Str) (y venue ab : Option Str) (c : Char) (t : Str),
      (parse_structure (mkInit (some (c :: t)) A y venue ab) lines).title
        = some (c :: t)) ∧
    (∀ (lines : List Str) (ti : Option Str) (A : List Str) (y venue ab : Option Str),
      (parse_structure (mkInit ti A y venue ab) lines).year = y) ∧
    (∀ (lines : List Str) (ti : Option Str) (A : List Str) (y ab : Option Str)
      (d : Char) (v : Str),
      (parse_structure (mkInit ti A y (some (d :: v)) ab) lines).venue
        = some (d :: v)) ∧
    (∀ (lines : List Str) (ti : Option Str) (A : List Str) (y venue ab : Option Str),
      ∃ suf, (parse_structure (mkInit ti A y venue ab) lines).authors = A ++ suf) := by
  refine ⟨?_, ?_, ?_, ?_⟩
  · intro lines A y venue ab c t
    exact scan_title_pres lines lines.length (mkInit (some (c :: t)) A y venue ab) 0 c t rfl
  · intro lines ti A y venue ab
    exact scan_year lines lines.length (mkInit ti A y venue ab) 0
  · intro lines ti A y ab d v
    exact scan_venue_pres lines lines.length (mkInit ti A y (some (d :: v)) ab) 0 d v rfl
  · intro lines ti A y venue ab
    exact scan_authors_ext lines lines.length (mkInit ti A y venue ab) 0

/-- Claim C3, counterexample: a 600-character abstract line is stored
whole, so the abstract exceeds 500 characters in the final state. -/
theorem c3_abstract_cex : 500 < abstractLen c3fin := by decide

/-- Claim C3, amended: the abstract length never decreases at any step of
the scan, and once it has reached at least 500 characters the abstract
never changes again; the stored value can still exceed 500 characters,
because the append that crosses the cap is not truncated. -/
theorem c3_abstract_amended :
    (∀ (st : PState) (i n : Nat) (line : Str),
      abstractLen st ≤ abstractLen (step st i n line)) ∧
    (∀ (st : PState) (i n : Nat) (line : Str), 500 ≤ abstractLen st →
      (step st i n line).abstract = st.abstract) ∧
    (∀ (lines : List Str) (n : Nat) (st : PState) (i : Nat),
      abstractLen st ≤ abstractLen (scanFrom n st i lines)) ∧
    (∀ (lines : List Str) (n : Nat) (st : PState) (i : Nat), 500 ≤ abstractLen st →
      (scanFrom n st i lines).abstract = st.abstract) :=
  ⟨step_abstract_mono, step_abstract_frozen, scan_abstract_mono, scan_abstract_frozen⟩

/-- Claim C3, witness: a 500-character abstract stays frozen when a further
abstract-body line arrives. -/
theorem c3_abstract_amended_witness :
    (step frozenSt 3 9 (("more text follows").data)).abstract = frozenSt.abstract :=
  c3_abstract_amended.2.1 frozenSt 3 9 (("more text follows").data) (by decide)

/-- Claim C4, counterexample: after the line "abstract" at index 0 has set
metadataSection to false, the title-shaped line at index 1 is still
captured as the title, because the title branch checks no metadataSection
flag. -/
theorem c4_window_cex :
    c4mid.metadataSection = false ∧ c4mid.title = none ∧
    (step c4mid 1 2 titleLine).title = some titleLine :=
  ⟨by decide, by decide, by decide⟩

/-- Claim C4, amended: title capture happens only at an index below 15
while titleFound is still false and outside a skip window — with no
metadataSection requirement — and author or venue capture happens only at
an index below 40 while metadataSection is true and outside a skip
window. -/
theorem c4_window_amended :
    (∀ (st : PState) (i n : Nat) (line : Str),
      (step st i n line).title ≠ st.title ∨
        (step st i n line).titleFound ≠ st.titleFound →
        i < 15 ∧ st.titleFound = false ∧ st.skipLines = 0) ∧
    (∀ (st : PState) (i n : Nat) (line : Str),
      (step st i n line).authors ≠ st.authors ∨
        (step st i n line).venue ≠ st.venue →
        i < 40 ∧ st.metadataSection = true ∧ st.skipLines = 0) := by
  constructor
  · intro st i n line h
    rcases step_title_cases st i n line with ⟨h1, h2⟩ | ⟨hg, hs⟩
    · rcases h with h | h
      · exact absurd h1 h
      · exact absurd h2 h
    · obtain ⟨hi, htf⟩ := gTitleB_window hg
      exact ⟨hi, htf, hs⟩
  · intro st i n line h
    rcases step_av_cases st i n line with ⟨h1, h2⟩ | ⟨hg, hs⟩
    · rcases h with h | h
      · exact absurd h1 h
      · exact absurd h2 h
    · rcases hg with hg | hg
      · obtain ⟨hi, hms⟩ := gAuthorB_window hg
        exact ⟨hi, hms, hs⟩
      · obtain ⟨hi, hms⟩ := fallInstB_window hg
        exact ⟨hi, hms, hs⟩

/-- Claim C4, witness: concrete title and author captures inside the
windows. -/
theorem c4_window_amended_witness :
    ((1 : Nat) < 15 ∧ c4mid.titleFound = false ∧ c4mid.skipLines = 0) ∧
    ((20 : Nat) < 40 ∧ cst9.metadataSection = true ∧ cst9.skipLines = 0) :=
  ⟨c4_window_amended.1 c4mid 1 2 titleLine (Or.inl (by decide)),
   c4_window_amended.2 cst9 20 25 authorLine (Or.inl (by decide))⟩

/-- Claim C5, counterexample: when "Table 1: Results" is the last line of
the document, the table detector refuses it (it requires at least two
following lines), so the scan emits a plain paragraph fragment, no bold
caption, and opens no skip window. -/
theorem c5_table_cex :
    c5fin.result = [abstractFrag, (("Table 1: Results\n").data)] ∧
    ¬ tableFrag tableLine ∈ c5fin.result ∧
    c5fin.skipLines = 0 :=
  ⟨by decide, by decide, by decide⟩

/-- Claim C5, amended: a line containing "Table" and ":" that reaches the
table branch (not blank, not consumed by the title, author-affiliation or
abstract-header branches, not in a skip window) and has at least two lines
after it flushes the paragraph buffer, emits exactly one bold caption
fragment, and sets the skip counter to min 10 (n - i); while the skip
counter is positive, a line is dropped with no fragment and the counter
decremented. -/
theorem c5_table_amended :
    (∀ (st : PState) (i n : Nat) (line : Str),
      st.skipLines = 0 →
      gBlankB line = false →
      gTitleB st.titleFound i line = false →
      gAuthorB st.titleFound st.metadataSection i line = false →
      gAbstractB line = false →
      gTableB i n line = true →
      (step st i n line).result
          = st.result ++ format_paragraph st.buffer ++ [tableFrag (pyStrip line)] ∧
        (step st i n line).buffer = [] ∧
        (step st i n line).skipLines = min 10 (n - i)) ∧
    (∀ (st : PState) (i n : Nat) (line : Str), st.skipLines ≠ 0 →
      (step st i n line).result = st.result ∧
        (step st i n line).buffer = st.buffer ∧
        (step st i n line).skipLines = st.skipLines - 1) := by
  constructor
  · intro st i n line h0 h1 h2 h3 h4 h5
    simp only [step, h0, h1, h2, h3, h4, stepTail, h5, if_true, if_false,
      Bool.false_eq_true, ne_eq, not_true_eq_false, not_false_eq_true]
    simp only [stepTable, emitFlush]
    refine ⟨?_, ?_, ?_⟩ <;> first
      | trivial
      | (split_ifs <;> simp)
  · intro st i n line h
    simp [step, if_pos h]

/-- Claim C5, witness: the caption line at index 50 of a 60-line document
emits the bold fragment and opens a ten-line skip window, and a state with
a positive skip counter drops the next line. -/
theorem c5_table_amended_witness :
    ((step bodySt 50 60 tableLine).result
        = bodySt.result ++ format_paragraph bodySt.buffer ++ [tableFrag (pyStrip tableLine)] ∧
      (step bodySt 50 60 tableLine).buffer = [] ∧
      (step bodySt 50 60 tableLine).skipLines = min 10 (60 - 50)) ∧
    ((step c5stB 5 9 tableLine).result = c5stB.result ∧
      (step c5stB 5 9 tableLine).buffer = c5stB.buffer ∧
      (step c5stB 5 9 tableLine).skipLines = c5stB.skipLines - 1) :=
  ⟨c5_table_amended.1 bodySt 50 60 tableLine (by decide) (by decide) (by decide)
      (by decide) (by decide) (by decide),
   c5_table_amended.2 c5stB 5 9 tableLine (by decide)⟩

/-- Claim C9: the authors list never contains two identical strings —
every append path skips exact duplicates, at each step and over the whole
scan — and the author line "Alice Smith, Bob Jones" processed at index 20
with the title found and the metadata section active yields exactly these
two authors, while re-encountering the identical line leaves the list
unchanged. -/
theorem c9_authors_nodup :
    (∀ (st : PState) (i n : Nat) (line : Str),
      st.authors.Nodup → (step st i n line).authors.Nodup) ∧
    (∀ (lines : List Str) (n : Nat) (st : PState) (i : Nat),
      st.authors.Nodup → (scanFrom n st i lines).authors.Nodup) ∧
    (step cst9 20 25 authorLine).authors
      = [("Alice Smith").data, ("Bob Jones").data] ∧
    (step (step cst9 20 25 authorLine) 21 25 authorLine).authors
      = [("Alice Smith").data, ("Bob Jones").data] :=
  ⟨step_authors_nodup, fun lines => scan_authors_nodup lines, by decide, by decide⟩

/-- Claim C9, witness: the concrete author step keeps the list
duplicate-free. -/
theorem c9_authors_nodup_witness :
    ((step cst9 20 25 authorLine).authors).Nodup :=
  c9_authors_nodup.1 cst9 20 25 authorLine (by decide)

end PaperMd
